import Mathlib

/-!
# Verification of the LunaTV health-check engine (`check_api.js`)

Shallow embedding of the concurrent probing engine of `check_api.js`:
the bounded-concurrency scheduler (`queueRun`), the retrying prober
(`safeGet`) and search validator (`testSearch`), the history window
truncation, and the per-endpoint aggregation (failure streak, reliability
tier, status symbol, reliable-subset filter).

JavaScript runtime values are modelled as follows: JSON-like response
bodies become the inductive `Json`; `NaN` (from `parseFloat("-")`) and
`Infinity` (the default average latency) become `Option` values where the
`none` case is the non-numeric sentinel; async task resolution becomes an
explicit outcome function together with a completion schedule.
-/

namespace LunaTV

/-! ## Configuration constants (lines 13-20 of the source) -/

def MAX_DAYS : Nat := 30
def WARN_STREAK : Nat := 3
def MAX_RETRY : Nat := 2
def RETRY_DELAY_MS : Nat := 500

/-! ## JSON values and `JSON.stringify`

`Json` models the JavaScript values a parsed HTTP response body can take.
`jstr` models `JSON.stringify` on such data values (keys and strings
quoted, `"` and `\` escaped, no spaces — as `JSON.stringify` with no
formatting argument produces). -/

inductive Json where
  | null : Json
  | bool (b : Bool) : Json
  | num (n : Int) : Json
  | str (s : String) : Json
  | arr (xs : List Json) : Json
  | obj (fs : List (String × Json)) : Json

def jescapeChar (c : Char) : String :=
  if c = '"' then "\\\"" else if c = '\\' then "\\\\" else String.singleton c

def jescape (s : String) : String :=
  String.join (s.data.map jescapeChar)

mutual

def jstr : Json → String
  | .null => "null"
  | .bool true => "true"
  | .bool false => "false"
  | .num n => toString n
  | .str s => "\"" ++ jescape s ++ "\""
  | .arr xs => "[" ++ jstrElems xs ++ "]"
  | .obj fs => "\x7b" ++ jstrFields fs ++ "\x7d"

def jstrElems : List Json → String
  | [] => ""
  | [x] => jstr x
  | x :: y :: xs => jstr x ++ "," ++ jstrElems (y :: xs)

def jstrFields : List (String × Json) → String
  | [] => ""
  | [(k, v)] => "\"" ++ jescape k ++ "\":" ++ jstr v
  | (k, v) :: f :: fs => "\"" ++ jescape k ++ "\":" ++ jstr v ++ "," ++ jstrFields (f :: fs)

end

/-- `String.includes` of JavaScript: substring containment. -/
def strIncludes (s sub : String) : Bool :=
  decide (sub.data <:+: s.data)

/-! ## JavaScript value semantics used by `testSearch` (lines 130-135) -/

/-- JavaScript truthiness of a data value. -/
def truthy : Json → Bool
  | .null => false
  | .bool b => b
  | .num n => n != 0
  | .str s => s != ""
  | .arr _ => true
  | .obj _ => true

/-- `res.data && typeof res.data === "object"`: truthy and of object type
(arrays and objects; `null` is falsy, primitives have other typeof). -/
def truthyObject : Json → Bool
  | .arr _ => true
  | .obj _ => true
  | _ => false

/-- Property access `data.k`: `undefined` (`none`) unless `data` is an
object with field `k` (first binding wins, as in a parsed JSON object). -/
def getField : Json → String → Option Json
  | .obj fs, k => (fs.find? (fun p => p.1 == k)).map (fun p => p.2)
  | _, _ => none

/-- `res.data.list || []`: the `list` field if present and truthy,
otherwise a fresh empty array. -/
def listVal (data : Json) : Json :=
  match getField data "list" with
  | some v => if truthy v then v else .arr []
  | none => .arr []

/-- JavaScript `.length` as a number: defined on arrays and strings,
`undefined` (`none`, falsy) on everything else. -/
def jsLength : Json → Option Nat
  | .arr xs => some xs.length
  | .str s => some s.length
  | _ => none

/-- Lines 133-135 of the source: the body-dependent part of one
`testSearch` attempt. `Except.error ()` models a thrown `TypeError`
(`list.some` called on a non-array with truthy `.length`), which the
surrounding `catch` absorbs. -/
def classifyBody (data : Json) (kw : String) : Except Unit String :=
  let list := listVal data
  match jsLength list with
  | none => .ok "无结果"
  | some 0 => .ok "无结果"
  | some (_ + 1) =>
    match list with
    | .arr xs => .ok (if xs.any (fun item => strIncludes (jstr item) kw) then "✅" else "不匹配")
    | _ => .error ()

/-- Lines 132-135: classification of one search response
(`res.status`, `res.data`) against the keyword. -/
def classifyResp (status : Nat) (data : Json) (kw : String) : Except Unit String :=
  if status != 200 || !(truthyObject data) then .ok "❌"
  else classifyBody data kw

/-! ## Retry wrappers (lines 90-141)

An attempt of `safeGet` either returns normally (the inner try produced a
response: `success` is `status === 200`, with the measured latency) or
throws (network error / timeout at both HEAD and STREAM stages, with the
elapsed time).  `att n` is the behaviour of attempt number `n` (attempts
are numbered from 1, as in the `for` loop).

A `RetryTrace` records, besides the returned value, how many attempts
were made and the argument of each `delay(...)` call, in order. -/

inductive ProbeAttempt where
  | ok (success : Bool) (latencyMs : Nat) : ProbeAttempt
  | exn (elapsedMs : Nat) : ProbeAttempt

structure ProbeOutcome where
  success : Bool
  latencyMs : Nat
deriving DecidableEq

structure RetryTrace (ρ : Type) where
  result : ρ
  attemptsMade : Nat
  delays : List Nat
deriving DecidableEq

/-- The `safeGet` loop from attempt number `attempt`, with
`remaining = MAX_RETRY - attempt` more attempts allowed after this one
(`remaining = 0` is the last attempt: the `attempt < MAX_RETRY` test of
line 121 is false).  Lines 91-124 of the source. -/
def safeGetAux (att : Nat → ProbeAttempt) (baseDelay : Nat) :
    Nat → Nat → RetryTrace ProbeOutcome
  | attempt, remaining =>
    match att attempt with
    | .ok s l => ⟨⟨s, l⟩, 1, []⟩
    | .exn l =>
      match remaining with
      | 0 => ⟨⟨false, l⟩, 1, []⟩
      | r + 1 =>
        let rest := safeGetAux att baseDelay (attempt + 1) r
        ⟨rest.result, rest.attemptsMade + 1, baseDelay * attempt :: rest.delays⟩

/-- `safeGet`, parametrised by the retry budget and base delay (the source
fixes them to `MAX_RETRY` and `RETRY_DELAY_MS`); the loop starts at
attempt 1.  Requires `1 ≤ maxRetry` to be faithful (the source's loop
body runs at least once exactly when `MAX_RETRY ≥ 1`). -/
def safeGet (att : Nat → ProbeAttempt) (maxRetry baseDelay : Nat) :
    RetryTrace ProbeOutcome :=
  safeGetAux att baseDelay 1 (maxRetry - 1)

/-- One `testSearch` attempt: either a response arrived (status and parsed
body) or the request threw. -/
inductive SearchAttempt where
  | resp (status : Nat) (data : Json) : SearchAttempt
  | exn : SearchAttempt

/-- Outcome of the try-block of one `testSearch` attempt: the returned
classification, or `.error ()` when the request (or `list.some` on a
non-array) threw. -/
def searchOutcome (att : Nat → SearchAttempt) (kw : String) (attempt : Nat) :
    Except Unit String :=
  match att attempt with
  | .exn => .error ()
  | .resp st data => classifyResp st data kw

/-- The `testSearch` loop from attempt number `attempt`; a thrown
`TypeError` inside the try-block (`classifyBody` returning `.error`)
is caught exactly like a network error.  Lines 128-140 of the source;
note the constant `delay(RETRY_DELAY_MS)` of line 137. -/
def testSearchAux (out : Nat → Except Unit String) (baseDelay : Nat) :
    Nat → Nat → RetryTrace String
  | attempt, 0 =>
    match out attempt with
    | .ok s => ⟨s, 1, []⟩
    | .error _ => ⟨"❌", 1, []⟩
  | attempt, r + 1 =>
    match out attempt with
    | .ok s => ⟨s, 1, []⟩
    | .error _ =>
      let rest := testSearchAux out baseDelay (attempt + 1) r
      ⟨rest.result, rest.attemptsMade + 1, baseDelay :: rest.delays⟩

/-- `testSearch`, parametrised like `safeGet`. -/
def testSearch (att : Nat → SearchAttempt) (kw : String) (maxRetry baseDelay : Nat) :
    RetryTrace String :=
  testSearchAux (searchOutcome att kw) baseDelay 1 (maxRetry - 1)

/-! ## Bounded concurrency scheduler `queueRun` (lines 144-167)

The event-loop semantics is made explicit: a state holds the admission
cursor `idx`, the indices of active (started, not yet settled) tasks,
and the results array (a slot per task, `none` until written).  `next`
is the admission loop; `complete j` is the settlement of task `j`
(its `.then`/`.catch`/`.finally` handlers: store the result, decrement
the active count, re-run `next`).  A schedule is the order in which
in-flight tasks settle; `queueRun` is its fold.  Task `i`'s eventual
resolution is `outcome i` (the value stored at index `i`: the fulfilled
value via `.then`, or the trapped rejection via `.catch`). -/

structure SchedState (α : Type) where
  idx : Nat
  running : List Nat
  results : List (Option α)
deriving DecidableEq

/-- Fulfilled value or trapped rejection, as stored by
`.then(res => results[i] = res).catch(err => results[i] = 〚error: err〛)`. -/
def capture {ε β : Type} (x : Except ε β) : β ⊕ ε :=
  match x with
  | .ok r => .inl r
  | .error e => .inr e

/-- The `while (active < limit && index < tasks.length)` admission loop:
starts `min (limit - active) (n - idx)` tasks at the cursor. -/
def next {α : Type} (limit n : Nat) (s : SchedState α) : SchedState α :=
  let k := min (limit - s.running.length) (n - s.idx)
  { idx := s.idx + k
    running := s.running ++ (List.range k).map (s.idx + ·)
    results := s.results }

/-- Settlement of task `j`: if it is in flight, its result is stored at
index `j`, it leaves the active set, and `next` runs again. -/
def complete {α : Type} (limit n : Nat) (outcome : Nat → α) (j : Nat)
    (s : SchedState α) : SchedState α :=
  if j ∈ s.running then
    next limit n
      { idx := s.idx
        running := s.running.erase j
        results := s.results.set j (some (outcome j)) }
  else s

def runSched {α : Type} (limit n : Nat) (outcome : Nat → α) :
    List Nat → SchedState α → SchedState α
  | [], s => s
  | j :: rest, s => runSched limit n outcome rest (complete limit n outcome j s)

def initState (α : Type) (n : Nat) : SchedState α :=
  { idx := 0, running := [], results := List.replicate n none }

/-- `queueRun tasks limit` under completion schedule `sched`: the initial
`next()` call of line 165 followed by the settlements in `sched`'s order. -/
def queueRun {α : Type} (limit n : Nat) (outcome : Nat → α) (sched : List Nat) :
    SchedState α :=
  runSched limit n outcome sched (next limit n (initState α n))

/-! ## History window (lines 206-207) and per-endpoint aggregation -/

/-- One entry of a run record's `results` array (line 195 / line 186). -/
structure ResultRec where
  name : String
  api : String
  disabled : Bool
  success : Bool
  latencyMs : Option Nat
  searchStatus : String
deriving DecidableEq

/-- One run record of the history window (lines 200-204), oldest first
in the window. -/
structure DayRec where
  date : String
  keyword : String
  results : List ResultRec
deriving DecidableEq

/-- `history.push(todayRecord); if (history.length > MAX_DAYS) history =
history.slice(-MAX_DAYS)` — append then keep the last `cap` records. -/
def pushTrunc {ρ : Type} (cap : Nat) (history : List ρ) (today : ρ) : List ρ :=
  let h := history ++ [today]
  if cap < h.length then h.drop (h.length - cap) else h

/-- `day.results.find(x => x.api === api)` (lines 216 and 225). -/
def findRec (api : String) (day : DayRec) : Option ResultRec :=
  day.results.find? (fun x => x.api == api)

/-- The streak scan of lines 223-229, on the history listed newest first:
a record with no entry for the endpoint is skipped (`continue`), a
success stops the scan (`break`), a failure counts. -/
def streakScan (api : String) : List DayRec → Nat
  | [] => 0
  | d :: rest =>
    match findRec api d with
    | none => streakScan api rest
    | some r => if r.success then 0 else streakScan api rest + 1

/-- Trailing failure streak of an endpoint over the window (oldest first,
as stored): the `for (let i = history.length - 1; i >= 0; i--)` loop. -/
def streak (api : String) (history : List DayRec) : Nat :=
  streakScan api history.reverse

/-- Modelled from the spec claim (not from the source): the variant scan
that stops at the first record lacking an entry for the endpoint, used
only to compare the claim's words against `streakScan`. -/
def streakStopScan (api : String) : List DayRec → Nat
  | [] => 0
  | d :: rest =>
    match findRec api d with
    | none => 0
    | some r => if r.success then 0 else streakStopScan api rest + 1

/-- The claim's streak, on the window as stored (oldest first). -/
def streakStop (api : String) (history : List DayRec) : Nat :=
  streakStopScan api history.reverse

/-! ## Reliability tier, status symbol and reliable subset
(lines 250-260 and 358-367)

`stats[api].successRate` is the string `"-"` when `ok + fail = 0` and a
percentage string otherwise (line 231); `parseFloat` maps these to `NaN`
and the numeric rate, modelled as `Option ℚ` with `none` for `NaN`.
`stats[api].latencyAvgMs` is `"-"` (so `avgLatency = Infinity`, line 251)
when no numeric latency exists in the window, modelled as `Option Nat`
with `none` for `Infinity`. -/

/-- `avgLatency < bound` where `avgLatency` may be `Infinity` (`none`). -/
def ltAvg (avg : Option Nat) (bound : Nat) : Bool :=
  match avg with
  | some a => a < bound
  | none => false

/-- Lines 250-256: the `reliable` field.  It keeps its initial placeholder
`"-"` (line 212) when the rate is `NaN`. -/
def reliableOf (rateNum : Option ℚ) (avg : Option Nat) : String :=
  match rateNum with
  | none => "-"
  | some r =>
    if decide (90 ≤ r) && ltAvg avg 2500 then "✅ 高"
    else if decide (70 ≤ r) && ltAvg avg 5000 then "⚠️ 中"
    else "❌ 低"

/-- Lines 258-260: the status symbol, from the initial `"❌"` of line 212.
`latest` is `latest?.success` (`none` when the endpoint is absent from
today's results, in which case `latest?.success` is `undefined`, falsy). -/
def statusOf (disabled : Bool) (strk : Nat) (latest : Option Bool) : String :=
  if disabled then "🚫"
  else if WARN_STREAK ≤ strk then "🚨"
  else if latest.getD false then "✅" else "❌"

/-- Lines 363-365: membership of an endpoint in the reliable-subset
output, given its parsed success rate and status symbol:
`!isNaN(rate) && rate >= 90 && s.status !== "🚨"`. -/
def inReliable (rateNum : Option ℚ) (status : String) : Bool :=
  match rateNum with
  | none => false
  | some r => decide (90 ≤ r) && status != "🚨"

/-! ## Concrete fixtures used by witnesses and counterexamples -/

/-- A day on which endpoint `"a"` failed. -/
def dayFail : DayRec := ⟨"d", "k", [⟨"n", "a", false, false, some 100, "-"⟩]⟩

/-- A day with no entry for endpoint `"a"`. -/
def dayMiss : DayRec := ⟨"d", "k", []⟩

/-- A day on which endpoint `"a"` succeeded. -/
def dayOk : DayRec := ⟨"d", "k", [⟨"n", "a", false, true, some 100, "-"⟩]⟩

/-- Two tasks: task 0 always rejects, task 1 fulfils with its index. -/
def exTasks : Nat → Except String Nat :=
  fun i => if i = 0 then .error "boom" else .ok i

/-! ## C5: history truncation -/

/-- C5: appending today's record to a history window whose length is at
least the cap (30) yields a window of exactly the cap's length, equal to
the last 30 records of the appended window (FIFO eviction from the
front); in particular, when the pre-append length equals the cap, the new
oldest record is the second-oldest record of the pre-append window. -/
theorem history_truncation {ρ : Type} (h : List ρ) (t : ρ)
    (hlen : MAX_DAYS ≤ h.length) :
    (pushTrunc MAX_DAYS h t).length = MAX_DAYS ∧
    pushTrunc MAX_DAYS h t = (h ++ [t]).drop (h.length + 1 - MAX_DAYS) ∧
    (h.length = MAX_DAYS → (pushTrunc MAX_DAYS h t)[0]? = h[1]?) := by
  have hcond : MAX_DAYS < (h ++ [t]).length := by
    simp only [List.length_append, List.length_singleton]
    omega
  have hpt : pushTrunc MAX_DAYS h t = (h ++ [t]).drop ((h ++ [t]).length - MAX_DAYS) := by
    simp only [pushTrunc, if_pos hcond]
  refine ⟨?_, ?_, ?_⟩
  · rw [hpt, List.length_drop]
    simp only [List.length_append, List.length_singleton]
    omega
  · rw [hpt]
    simp only [List.length_append, List.length_singleton]
  · intro h30
    have h30' : h.length = 30 := h30
    rw [hpt]
    have h1 : (h ++ [t]).length - MAX_DAYS = 1 := by
      simp only [List.length_append, List.length_singleton, h30]
      omega
    rw [h1, List.getElem?_drop, List.getElem?_append,
      if_pos (show 1 + 0 < h.length by omega)]

/-- Witness for C5 at a concrete 30-day window. -/
theorem history_truncation_witness :
    (pushTrunc MAX_DAYS (List.range 30) 99).length = MAX_DAYS ∧
    pushTrunc MAX_DAYS (List.range 30) 99
      = ((List.range 30) ++ [99]).drop ((List.range 30).length + 1 - MAX_DAYS) ∧
    ((List.range 30).length = MAX_DAYS →
      (pushTrunc MAX_DAYS (List.range 30) 99)[0]? = (List.range 30)[1]?) :=
  history_truncation (List.range 30) 99 (by decide)

/-! ## C2: trailing failure streak -/

/-- C2 counterexample: on the window `[fail, missing, fail]` (oldest
first) the source's streak is 2 — the scan skips the record lacking an
entry — while the claim's stop-at-missing scan gives 1. -/
theorem streak_missing_cex :
    streak "a" [dayFail, dayMiss, dayFail] = 2 ∧
    streakStop "a" [dayFail, dayMiss, dayFail] = 1 ∧
    streak "a" [dayFail, dayMiss, dayFail]
      ≠ streakStop "a" [dayFail, dayMiss, dayFail] := by
  decide

theorem streakScan_eq_takeWhile (api : String) (l : List DayRec) :
    streakScan api l
      = ((l.filterMap (findRec api)).takeWhile (fun r => !r.success)).length := by
  induction l with
  | nil => rfl
  | cons d rest ih =>
    cases hfd : findRec api d with
    | none => simp [streakScan, List.filterMap_cons, hfd, ih]
    | some r =>
      cases hs : r.success with
      | true => simp [streakScan, List.filterMap_cons, List.takeWhile_cons, hfd, hs]
      | false => simp [streakScan, List.filterMap_cons, List.takeWhile_cons, hfd, hs, ih]

/-- C2 amended: the trailing failure streak equals the number of
consecutive failing entries obtained by scanning the history from newest
to oldest, where a record lacking an entry for the endpoint is skipped
(the scan continues past it) and the scan stops only at the first
success. -/
theorem streak_skips_missing (api : String) (history : List DayRec) :
    streak api history
      = ((history.reverse.filterMap (findRec api)).takeWhile
          (fun r => !r.success)).length :=
  streakScan_eq_takeWhile api history.reverse

/-! ## C3: reliability tier -/

/-- C3 counterexample: with zero samples the success rate is the
non-numeric sentinel, and the `reliable` field keeps its placeholder
`"-"` instead of being classified Low. -/
theorem reliable_tier_cex :
    reliableOf none none = "-" ∧ ("-" : String) ≠ "❌ 低" := by
  decide

/-- C3 amended: when the success rate is computable the tier is the
three-way classification — High when rate ≥ 90 and average latency
< 2500 ms, Medium when rate ≥ 70 and average latency < 5000 ms, Low
otherwise — but when the rate is not computable (zero samples) the tier
is the unclassified placeholder `"-"`.  (`ltAvg avg c = false` covers
both a numeric average at or above `c` and the no-data `Infinity`.) -/
theorem reliable_tier (r : ℚ) (avg : Option Nat) :
    (90 ≤ r → ltAvg avg 2500 = true → reliableOf (some r) avg = "✅ 高") ∧
    (70 ≤ r → ltAvg avg 5000 = true → (r < 90 ∨ ltAvg avg 2500 = false) →
      reliableOf (some r) avg = "⚠️ 中") ∧
    ((r < 90 ∨ ltAvg avg 2500 = false) → (r < 70 ∨ ltAvg avg 5000 = false) →
      reliableOf (some r) avg = "❌ 低") ∧
    reliableOf none avg = "-" := by
  refine ⟨?_, ?_, ?_, rfl⟩
  · intro h90 hlt
    simp [reliableOf, h90, hlt]
  · intro h70 hlt5 hfirst
    rcases hfirst with hlow | hfalse
    · have h90 : ¬ 90 ≤ r := not_le.mpr hlow
      simp [reliableOf, h90, h70, hlt5]
    · simp [reliableOf, hfalse, h70, hlt5]
  · intro hfirst hsecond
    rcases hfirst with hlow | hfalse <;> rcases hsecond with hlow2 | hfalse2
    · simp [reliableOf, not_le.mpr hlow, not_le.mpr hlow2]
    · simp [reliableOf, not_le.mpr hlow, hfalse2]
    · simp [reliableOf, hfalse, not_le.mpr hlow2]
    · simp [reliableOf, hfalse, hfalse2]

/-- Witness for C3's amended tier at the spec's sample points. -/
theorem reliable_tier_witness :
    reliableOf (some 95) (some 1200) = "✅ 高" ∧
    reliableOf (some 80) (some 3000) = "⚠️ 中" ∧
    reliableOf (some 50) (some 100) = "❌ 低" :=
  ⟨(reliable_tier 95 (some 1200)).1 (by norm_num) (by decide),
   (reliable_tier 80 (some 3000)).2.1 (by norm_num) (by decide) (by norm_num),
   (reliable_tier 50 (some 100)).2.2.1 (by norm_num) (by norm_num)⟩

/-! ## C9: disabled status overrides the streak alert -/

/-- C9: a disabled endpoint gets the disabled symbol `"🚫"`, which takes
priority over the streak-alert symbol `"🚨"` (that the same streak would
otherwise trigger), and since the reliable-subset filter only excludes
the `"🚨"` status, a disabled endpoint with success rate ≥ 90 % is
included in the reliable subset even when its trailing failure streak is
at or above the alert threshold. -/
theorem disabled_overrides_streak (api : String) (history : List DayRec)
    (latest : Option Bool) (r : ℚ) (hr : 90 ≤ r)
    (hs : WARN_STREAK ≤ streak api history) :
    statusOf true (streak api history) latest = "🚫" ∧
    statusOf false (streak api history) latest = "🚨" ∧
    inReliable (some r) (statusOf true (streak api history) latest) = true := by
  refine ⟨rfl, ?_, ?_⟩
  · simp [statusOf, hs]
  · simp [statusOf, inReliable, hr]

/-- Witness for C9: endpoint `"a"` has a 3-day failure streak, is
disabled, and its rate 95 is ≥ 90. -/
theorem disabled_overrides_streak_witness :
    statusOf true (streak "a" [dayFail, dayFail, dayFail]) none = "🚫" ∧
    statusOf false (streak "a" [dayFail, dayFail, dayFail]) none = "🚨" ∧
    inReliable (some 95) (statusOf true (streak "a" [dayFail, dayFail, dayFail]) none)
      = true :=
  disabled_overrides_streak "a" [dayFail, dayFail, dayFail] none 95
    (by norm_num) (by decide)

/-! ## C10: missing `list` field is treated as an empty result list -/

/-- C10: a 200 response whose body is an object without a `list` field is
classified NoResults (`"无结果"`), not Fail: `res.data.list || []`
substitutes the empty list. -/
theorem missing_list_noresults (fs : List (String × Json)) (kw : String)
    (hmiss : getField (.obj fs) "list" = none) :
    classifyResp 200 (.obj fs) kw = .ok "无结果" := by
  simp [classifyResp, truthyObject, classifyBody, listVal, hmiss, jsLength]

/-- Witness for C10 at a concrete body `\x7b"code": 1\x7d`. -/
theorem missing_list_noresults_witness :
    classifyResp 200 (.obj [("code", .num 1)]) "斗罗大陆" = .ok "无结果" :=
  missing_list_noresults [("code", .num 1)] "斗罗大陆" (by rfl)

/-! ## C7: search-response classification -/

/-- C7: the search validator classifies a response as: non-200 status or
non-structured (not a truthy object) body → Fail `"❌"`; empty result
list → NoResults `"无结果"`; result list with at least one entry whose
JSON-serialized form contains the keyword as a substring → Pass `"✅"`;
otherwise → Mismatch `"不匹配"`.  The result-list hypotheses are phrased
through `listVal`, which is `.arr []` exactly when the `list` field is
absent, falsy, or an empty array. -/
theorem search_classification (status : Nat) (data : Json) (kw : String) :
    (status ≠ 200 ∨ truthyObject data = false →
      classifyResp status data kw = .ok "❌") ∧
    (status = 200 → truthyObject data = true → listVal data = .arr [] →
      classifyResp status data kw = .ok "无结果") ∧
    (∀ xs, status = 200 → truthyObject data = true → listVal data = .arr xs →
      (∃ item ∈ xs, strIncludes (jstr item) kw = true) →
      classifyResp status data kw = .ok "✅") ∧
    (∀ xs, status = 200 → truthyObject data = true → listVal data = .arr xs →
      xs ≠ [] → (∀ item ∈ xs, strIncludes (jstr item) kw = false) →
      classifyResp status data kw = .ok "不匹配") := by
  refine ⟨?_, ?_, ?_, ?_⟩
  · rintro (hst | hobj)
    · have : (status != 200) = true := by simpa [bne_iff_ne] using hst
      simp [classifyResp, this]
    · simp [classifyResp, hobj]
  · intro hst hobj hlist
    subst hst
    simp [classifyResp, hobj, classifyBody, hlist, jsLength]
  · intro xs hst hobj hlist hex
    subst hst
    obtain ⟨item, hmem, hinc⟩ := hex
    have hne : xs ≠ [] := by rintro rfl; exact absurd hmem (List.not_mem_nil item)
    obtain ⟨y, ys, rfl⟩ := List.exists_cons_of_ne_nil hne
    have hany : (y :: ys).any (fun it => strIncludes (jstr it) kw) = true :=
      List.any_eq_true.mpr ⟨item, hmem, hinc⟩
    simp [classifyResp, hobj, classifyBody, hlist, jsLength, hany]
  · intro xs hst hobj hlist hne hall
    subst hst
    obtain ⟨y, ys, rfl⟩ := List.exists_cons_of_ne_nil hne
    have hany : (y :: ys).any (fun it => strIncludes (jstr it) kw) = false := by
      rw [Bool.eq_false_iff]
      intro hcontra
      obtain ⟨item, hmem, hinc⟩ := List.any_eq_true.mp hcontra
      rw [hall item hmem] at hinc
      exact Bool.false_ne_true hinc
    simp [classifyResp, hobj, classifyBody, hlist, jsLength, hany]

/-- Witness for C7 at the spec's sample response: body
`\x7blist: [\x7btitle: "斗罗大陆"\x7d]\x7d` with keyword `"斗罗大陆"`
classifies as Pass. -/
theorem search_classification_witness :
    classifyResp 200 (.obj [("list", .arr [.obj [("title", .str "斗罗大陆")]])])
      "斗罗大陆" = .ok "✅" :=
  (search_classification 200
      (.obj [("list", .arr [.obj [("title", .str "斗罗大陆")]])]) "斗罗大陆").2.2.1
    [.obj [("title", .str "斗罗大陆")]] rfl rfl rfl
    ⟨.obj [("title", .str "斗罗大陆")], List.mem_cons_self _ _, by rfl⟩

/-! ## C4: back-off policy of the two retry loops -/

theorem safeGetAux_ok (att : Nat → ProbeAttempt) (b a rem s l : _)
    (h : att a = .ok s l) :
    safeGetAux att b a rem = ⟨⟨s, l⟩, 1, []⟩ := by
  rw [safeGetAux, h]

theorem safeGetAux_exn_zero (att : Nat → ProbeAttempt) (b a l : Nat)
    (h : att a = .exn l) :
    safeGetAux att b a 0 = ⟨⟨false, l⟩, 1, []⟩ := by
  rw [safeGetAux, h]

theorem safeGetAux_exn_succ (att : Nat → ProbeAttempt) (b a r l : Nat)
    (h : att a = .exn l) :
    safeGetAux att b a (r + 1)
      = ⟨(safeGetAux att b (a + 1) r).result,
         (safeGetAux att b (a + 1) r).attemptsMade + 1,
         b * a :: (safeGetAux att b (a + 1) r).delays⟩ := by
  rw [safeGetAux, h]

theorem testSearchAux_ok (out : Nat → Except Unit String) (b a rem : Nat)
    (s : String) (h : out a = .ok s) :
    testSearchAux out b a rem = ⟨s, 1, []⟩ := by
  cases rem <;> rw [testSearchAux, h]

theorem testSearchAux_err_zero (out : Nat → Except Unit String) (b a : Nat)
    (h : out a = .error ()) :
    testSearchAux out b a 0 = ⟨"❌", 1, []⟩ := by
  rw [testSearchAux, h]

theorem testSearchAux_err_succ (out : Nat → Except Unit String) (b a r : Nat)
    (h : out a = .error ()) :
    testSearchAux out b a (r + 1)
      = ⟨(testSearchAux out b (a + 1) r).result,
         (testSearchAux out b (a + 1) r).attemptsMade + 1,
         b :: (testSearchAux out b (a + 1) r).delays⟩ := by
  rw [testSearchAux, h]

theorem safeGetAux_attempts_pos (att : Nat → ProbeAttempt) (b a rem : Nat) :
    1 ≤ (safeGetAux att b a rem).attemptsMade := by
  cases h : att a with
  | ok s l => rw [safeGetAux_ok att b a rem s l h]
  | exn l =>
    cases rem with
    | zero => rw [safeGetAux_exn_zero att b a l h]
    | succ r => rw [safeGetAux_exn_succ att b a r l h]; exact Nat.le_add_left 1 _

theorem testSearchAux_attempts_pos (out : Nat → Except Unit String)
    (b a rem : Nat) :
    1 ≤ (testSearchAux out b a rem).attemptsMade := by
  cases h : out a with
  | ok s => rw [testSearchAux_ok out b a rem s h]
  | error u =>
    cases u
    cases rem with
    | zero => rw [testSearchAux_err_zero out b a h]
    | succ r => rw [testSearchAux_err_succ out b a r h]; exact Nat.le_add_left 1 _

theorem safeGetAux_delays (att : Nat → ProbeAttempt) (b : Nat) (rem a : Nat) :
    (safeGetAux att b a rem).delays
      = (List.range' a ((safeGetAux att b a rem).attemptsMade - 1)).map
          (fun k => b * k) := by
  induction rem generalizing a with
  | zero =>
    cases h : att a with
    | ok s l => rw [safeGetAux_ok att b a 0 s l h]; rfl
    | exn l => rw [safeGetAux_exn_zero att b a l h]; rfl
  | succ r ih =>
    cases h : att a with
    | ok s l => rw [safeGetAux_ok att b a (r + 1) s l h]; rfl
    | exn l =>
      have hpos := safeGetAux_attempts_pos att b (a + 1) r
      obtain ⟨m, hm⟩ : ∃ m, (safeGetAux att b (a + 1) r).attemptsMade = m + 1 :=
        ⟨_, (Nat.succ_pred_eq_of_pos hpos).symm⟩
      rw [safeGetAux_exn_succ att b a r l h]
      show b * a :: (safeGetAux att b (a + 1) r).delays
        = (List.range' a ((safeGetAux att b (a + 1) r).attemptsMade + 1 - 1)).map
            (fun k => b * k)
      rw [hm, Nat.add_sub_cancel, List.range'_succ, List.map_cons]
      exact congrArg _ (by simpa [hm] using ih (a + 1))

theorem testSearchAux_delays (out : Nat → Except Unit String) (b : Nat)
    (rem a : Nat) :
    (testSearchAux out b a rem).delays
      = List.replicate ((testSearchAux out b a rem).attemptsMade - 1) b := by
  induction rem generalizing a with
  | zero =>
    cases h : out a with
    | ok s => rw [testSearchAux_ok out b a 0 s h]; rfl
    | error u => cases u; rw [testSearchAux_err_zero out b a h]; rfl
  | succ r ih =>
    cases h : out a with
    | ok s => rw [testSearchAux_ok out b a (r + 1) s h]; rfl
    | error u =>
      cases u
      have hpos := testSearchAux_attempts_pos out b (a + 1) r
      obtain ⟨m, hm⟩ : ∃ m, (testSearchAux out b (a + 1) r).attemptsMade = m + 1 :=
        ⟨_, (Nat.succ_pred_eq_of_pos hpos).symm⟩
      rw [testSearchAux_err_succ out b a r h]
      show b :: (testSearchAux out b (a + 1) r).delays
        = List.replicate ((testSearchAux out b (a + 1) r).attemptsMade + 1 - 1) b
      rw [hm, Nat.add_sub_cancel, List.replicate_succ]
      exact congrArg _ (by simpa [hm] using ih (a + 1))

/-- C4 counterexample: with a retry budget of 3 and an always-throwing
operation, the search validator's waits are `[500, 500]` — the wait
before attempt 3 is the constant 500 ms, not `500 * 2` as the claimed
uniform linear back-off requires. -/
theorem retry_backoff_cex :
    (testSearch (fun _ => .exn) "x" 3 500).attemptsMade = 3 ∧
    (testSearch (fun _ => .exn) "x" 3 500).delays = [500, 500] ∧
    (testSearch (fun _ => .exn) "x" 3 500).delays ≠ [500 * 1, 500 * 2] := by
  decide

/-- C4 amended: the prober `safeGet` waits `baseDelayMs * attemptNumber`
between attempts (linear back-off, no wait after the last attempt: the
`k`-th wait of a run is `baseDelayMs * k`, and a run of `m` attempts
waits `m - 1` times), while the search validator `testSearch` waits the
constant `baseDelayMs` between attempts; the two policies coincide only
for runs of at most two attempts (as with the shipped `MAX_RETRY = 2`). -/
theorem retry_backoff (att : Nat → ProbeAttempt) (satt : Nat → SearchAttempt)
    (kw : String) (m b : Nat) :
    (safeGet att m b).delays
      = (List.range' 1 ((safeGet att m b).attemptsMade - 1)).map (fun k => b * k) ∧
    (testSearch satt kw m b).delays
      = List.replicate ((testSearch satt kw m b).attemptsMade - 1) b :=
  ⟨safeGetAux_delays att b (m - 1) 1, testSearchAux_delays (searchOutcome satt kw) b (m - 1) 1⟩

/-! ## C6: exhaustion of the retry budget -/

theorem safeGetAux_allfail (att : Nat → ProbeAttempt) (e : Nat → Nat) (b : Nat)
    (hatt : ∀ k, att k = .exn (e k)) (rem : Nat) :
    ∀ a, (safeGetAux att b a rem).result = ⟨false, e (a + rem)⟩ ∧
      (safeGetAux att b a rem).attemptsMade = rem + 1 := by
  induction rem with
  | zero =>
    intro a
    rw [safeGetAux_exn_zero att b a (e a) (hatt a)]
    exact ⟨rfl, rfl⟩
  | succ r ih =>
    intro a
    rw [safeGetAux_exn_succ att b a r (e a) (hatt a)]
    have harg : a + 1 + r = a + (r + 1) := by omega
    exact ⟨by rw [show ((⟨(safeGetAux att b (a + 1) r).result, _, _⟩ :
        RetryTrace ProbeOutcome)).result = (safeGetAux att b (a + 1) r).result
        from rfl, (ih (a + 1)).1, harg],
      by rw [show ((⟨_, (safeGetAux att b (a + 1) r).attemptsMade + 1, _⟩ :
        RetryTrace ProbeOutcome)).attemptsMade
        = (safeGetAux att b (a + 1) r).attemptsMade + 1 from rfl, (ih (a + 1)).2]⟩

theorem testSearchAux_allfail (out : Nat → Except Unit String) (b : Nat)
    (hout : ∀ k, out k = .error ()) (rem : Nat) :
    ∀ a, (testSearchAux out b a rem).result = "❌" ∧
      (testSearchAux out b a rem).attemptsMade = rem + 1 := by
  induction rem with
  | zero =>
    intro a
    rw [testSearchAux_err_zero out b a (hout a)]
    exact ⟨rfl, rfl⟩
  | succ r ih =>
    intro a
    rw [testSearchAux_err_succ out b a r (hout a)]
    exact ⟨(ih (a + 1)).1, by
      rw [show ((⟨_, (testSearchAux out b (a + 1) r).attemptsMade + 1, _⟩ :
        RetryTrace String)).attemptsMade
        = (testSearchAux out b (a + 1) r).attemptsMade + 1 from rfl, (ih (a + 1)).2]⟩

/-- C6: when every attempt of the wrapped operation throws, the prober
returns the failure outcome `⟨false, elapsed-of-last-attempt⟩` and the
search validator returns Fail `"❌"`, each after exactly `maxRetry`
attempts; both return a value (the loops absorb every exception), so no
exception reaches the caller. -/
theorem retry_exhaustion (att : Nat → ProbeAttempt) (satt : Nat → SearchAttempt)
    (e : Nat → Nat) (kw : String) (m b : Nat) (hm : 1 ≤ m)
    (hatt : ∀ k, att k = .exn (e k)) (hsatt : ∀ k, satt k = .exn) :
    (safeGet att m b).result = ⟨false, e m⟩ ∧
    (safeGet att m b).attemptsMade = m ∧
    (testSearch satt kw m b).result = "❌" ∧
    (testSearch satt kw m b).attemptsMade = m := by
  have h1 := safeGetAux_allfail att e b hatt (m - 1) 1
  have hout : ∀ k, searchOutcome satt kw k = .error () := by
    intro k; rw [searchOutcome, hsatt k]
  have h2 := testSearchAux_allfail (searchOutcome satt kw) b hout (m - 1) 1
  have hm1 : 1 + (m - 1) = m := by omega
  have hm2 : m - 1 + 1 = m := by omega
  refine ⟨?_, ?_, ?_, ?_⟩
  · rw [safeGet, h1.1, hm1]
  · rw [safeGet, h1.2, hm2]
  · rw [testSearch, h2.1]
  · rw [testSearch, h2.2, hm2]

/-- Witness for C6 at a concrete always-failing operation with the
shipped budget `MAX_RETRY = 2`. -/
theorem retry_exhaustion_witness :
    (safeGet (fun k => .exn k) 2 500).result = ⟨false, 2⟩ ∧
    (safeGet (fun k => .exn k) 2 500).attemptsMade = 2 ∧
    (testSearch (fun _ => .exn) "x" 2 500).result = "❌" ∧
    (testSearch (fun _ => .exn) "x" 2 500).attemptsMade = 2 :=
  retry_exhaustion (fun k => .exn k) (fun _ => .exn) (fun k => k) "x" 2 500
    (by decide) (fun _ => rfl) (fun _ => rfl)

/-! ## C1 and C8: the bounded concurrency scheduler

`SchedInv` collects the state invariants of `queueRun`'s event loop:
the active set is duplicate-free and contains only admitted indices, the
cursor never passes the task count, the results array keeps its length,
at most `limit` tasks are active, every admitted-and-settled task has its
own outcome stored at its own index, and (for a positive limit) the
active set is empty only when every task has been admitted. -/

structure SchedInv {α : Type} (limit n : Nat) (outcome : Nat → α)
    (s : SchedState α) : Prop where
  nodup : s.running.Nodup
  mem_lt : ∀ j ∈ s.running, j < s.idx
  idx_le : s.idx ≤ n
  len : s.results.length = n
  act_le : s.running.length ≤ limit
  done : ∀ i, i < s.idx → i ∉ s.running → s.results[i]? = some (some (outcome i))
  sat : 1 ≤ limit → s.idx < n → s.running ≠ []

theorem next_idx {α : Type} (limit n : Nat) (s : SchedState α) :
    (next limit n s).idx = s.idx + min (limit - s.running.length) (n - s.idx) := rfl

theorem next_running {α : Type} (limit n : Nat) (s : SchedState α) :
    (next limit n s).running
      = s.running ++ (List.range (min (limit - s.running.length) (n - s.idx))).map
          (s.idx + ·) := rfl

theorem next_results {α : Type} (limit n : Nat) (s : SchedState α) :
    (next limit n s).results = s.results := rfl

theorem next_inv {α : Type} {limit n : Nat} {outcome : Nat → α} {s : SchedState α}
    (nodup : s.running.Nodup)
    (mem_lt : ∀ j ∈ s.running, j < s.idx)
    (idx_le : s.idx ≤ n)
    (len : s.results.length = n)
    (act_le : s.running.length ≤ limit)
    (done : ∀ i, i < s.idx → i ∉ s.running → s.results[i]? = some (some (outcome i))) :
    SchedInv limit n outcome (next limit n s) := by
  have hkle1 : min (limit - s.running.length) (n - s.idx) ≤ limit - s.running.length :=
    Nat.min_le_left _ _
  have hkle2 : min (limit - s.running.length) (n - s.idx) ≤ n - s.idx :=
    Nat.min_le_right _ _
  constructor
  · rw [next_running, List.nodup_append]
    refine ⟨nodup, List.Nodup.map (fun x y hxy => Nat.add_left_cancel hxy)
      (List.nodup_range _), ?_⟩
    intro a ha hb
    obtain ⟨m, hm, rfl⟩ := List.mem_map.mp hb
    have := mem_lt _ ha
    omega
  · intro j hj
    rw [next_running] at hj
    rw [next_idx]
    rcases List.mem_append.mp hj with hj | hj
    · have := mem_lt _ hj; omega
    · obtain ⟨m, hm, rfl⟩ := List.mem_map.mp hj
      have := List.mem_range.mp hm
      omega
  · rw [next_idx]; omega
  · rw [next_results]; exact len
  · rw [next_running, List.length_append, List.length_map, List.length_range]
    omega
  · intro i hi hni
    rw [next_idx] at hi
    rw [next_running, List.mem_append] at hni
    push_neg at hni
    rw [next_results]
    by_cases hlt : i < s.idx
    · exact done i hlt hni.1
    · exfalso
      apply hni.2
      exact List.mem_map.mpr ⟨i - s.idx, List.mem_range.mpr (by omega), by omega⟩
  · intro hL hlt
    rw [next_idx] at hlt
    intro hemp
    rw [next_running] at hemp
    have hlen0 := congrArg List.length hemp
    rw [List.length_append, List.length_map, List.length_range] at hlen0
    simp only [List.length_nil] at hlen0
    omega

theorem complete_inv {α : Type} {limit n : Nat} {outcome : Nat → α}
    {s : SchedState α} (j : Nat) (inv : SchedInv limit n outcome s) :
    SchedInv limit n outcome (complete limit n outcome j s) := by
  rw [complete]
  by_cases hj : j ∈ s.running
  · rw [if_pos hj]
    apply next_inv
    · exact inv.nodup.erase j
    · exact fun i hi => inv.mem_lt i (List.mem_of_mem_erase hi)
    · exact inv.idx_le
    · rw [List.length_set]; exact inv.len
    · exact le_trans (List.Sublist.length_le (List.erase_sublist j s.running)) inv.act_le
    · intro i hi hni
      by_cases hij : i = j
      · subst hij
        have hlen : i < s.results.length := by
          rw [inv.len]; exact lt_of_lt_of_le (inv.mem_lt i hj) inv.idx_le
        exact List.getElem?_set_eq hlen
      · have hnr : i ∉ s.running := fun hir =>
          hni ((List.mem_erase_of_ne hij).mpr hir)
        rw [List.getElem?_set_ne (fun h => hij h.symm)]
        exact inv.done i hi hnr
  · rw [if_neg hj]
    exact inv

theorem runSched_inv {α : Type} {limit n : Nat} {outcome : Nat → α}
    (sched : List Nat) {s : SchedState α} (inv : SchedInv limit n outcome s) :
    SchedInv limit n outcome (runSched limit n outcome sched s) := by
  induction sched generalizing s with
  | nil => exact inv
  | cons j rest ih => exact ih (complete_inv j inv)

theorem queueRun_inv {α : Type} (limit n : Nat) (outcome : Nat → α)
    (sched : List Nat) :
    SchedInv limit n outcome (queueRun limit n outcome sched) := by
  apply runSched_inv
  apply next_inv
  · exact List.nodup_nil
  · intro j hj; exact absurd hj (List.not_mem_nil j)
  · exact Nat.zero_le n
  · exact List.length_replicate n none
  · exact Nat.zero_le limit
  · intro i hi; exact absurd hi (Nat.not_lt_zero i)

/-- C8: for every task count, outcome assignment and limit L ≥ 1, at no
point during `queueRun`'s execution are more than L tasks active
(started but not settled): every intermediate state of an execution is
`queueRun` run on a prefix of its completion schedule, and every such
state's active set has at most `limit` members. -/
theorem queueRun_active_bound {α : Type} (limit n : Nat) (outcome : Nat → α)
    (sched pre : List Nat) (hL : 1 ≤ limit) (hpre : pre <+: sched) :
    (queueRun limit n outcome pre).running.length ≤ limit :=
  (queueRun_inv limit n outcome pre).act_le

/-- Witness for C8: limit 2, three tasks, after the first settlement of
the schedule `[0, 1, 2]`. -/
theorem queueRun_active_bound_witness :
    (queueRun 2 3 (fun i => i) [0]).running.length ≤ 2 :=
  queueRun_active_bound 2 3 (fun i => i) [0, 1, 2] [0] (by decide) ⟨[1, 2], rfl⟩

/-- C1: for every task list (given by each task's eventual resolution
`tasks i`, a fulfilment or a rejection), every limit L ≥ 1, and every
completion order that drains the scheduler (empty active set at the
end), `queueRun`'s result array has exactly one slot per task and slot
`i` holds task `i`'s own captured outcome — `.inl` a fulfilled value,
`.inr` a trapped rejection stored as data — so one task's rejection
never disturbs another task's slot. -/
theorem queueRun_results {ε β : Type} (limit n : Nat) (tasks : Nat → Except ε β)
    (sched : List Nat) (hL : 1 ≤ limit)
    (hdone : (queueRun limit n (fun i => capture (tasks i)) sched).running = []) :
    (queueRun limit n (fun i => capture (tasks i)) sched).results.length = n ∧
    (queueRun limit n (fun i => capture (tasks i)) sched).results
      = (List.range n).map (fun i => some (capture (tasks i))) := by
  have inv := queueRun_inv limit n (fun i => capture (tasks i)) sched
  refine ⟨inv.len, ?_⟩
  have hidx : (queueRun limit n (fun i => capture (tasks i)) sched).idx = n := by
    rcases Nat.lt_or_ge (queueRun limit n (fun i => capture (tasks i)) sched).idx n with hlt | hge
    · exact absurd hdone (inv.sat hL hlt)
    · exact le_antisymm inv.idx_le hge
  apply List.ext_getElem?
  intro i
  by_cases hi : i < n
  · rw [inv.done i (lt_of_lt_of_eq hi hidx.symm) (by rw [hdone]; exact List.not_mem_nil i),
      List.getElem?_map, List.getElem?_range hi]
    rfl
  · rw [List.getElem?_eq_none (by rw [inv.len]; omega),
      List.getElem?_eq_none (by rw [List.length_map, List.length_range]; omega)]

/-- Witness for C1: two tasks under limit 1, task 0 always rejecting;
its rejection is stored at slot 0 and task 1's value at slot 1. -/
theorem queueRun_results_witness :
    (queueRun 1 2 (fun i => capture (exTasks i)) [0, 1]).results.length = 2 ∧
    (queueRun 1 2 (fun i => capture (exTasks i)) [0, 1]).results
      = (List.range 2).map (fun i => some (capture (exTasks i))) :=
  queueRun_results 1 2 exTasks [0, 1] (by decide) (by rfl)

end LunaTV
